import Mathlib

set_option maxRecDepth 100000
set_option maxHeartbeats 2000000

/-!
Verification of `charts/victoria-metrics-k8s-stack/hack/sync_grafana_dashboards.py`.

The script is embedded shallowly over `List Char` (Python `str`) and a JSON
value type (Python objects produced by `json.loads`).  Python exceptions are
modelled with `Except`; `str.replace` is modelled by a left-to-right
non-overlapping scan mirroring CPython's semantics.  Modelled subset notes:
JSON numbers are integers (floats are outside the model and count as parse
failures), string escapes cover the common cases used by the dashboards, and
`ensure_ascii` re-encoding of non-ASCII characters is not modelled.  None of
the verified claims depend on these corners.
-/

/-- The `{` character (written via its code to keep brace characters out of string context). -/
def lb : Char := '\x7b'

/-- The `}` character. -/
def rb : Char := '\x7d'

/-- The backtick character. -/
def bt : Char := '\x60'

/-- The backslash character. -/
def bs : Char := '\\'

/-- The double-quote character. -/
def dq : Char := '\"'

/-- The newline character. -/
def nlc : Char := '\n'

/-- The space character. -/
def spc : Char := ' '

/-- The comma character. -/
def cmc : Char := ','

/-- Auxiliary scanner for Python `str.replace`: `k` is the number of input
characters still to be skipped because they were consumed by a previous match. -/
def pyReplaceAux (pat rep : List Char) : List Char → Nat → List Char
  | [], _ => []
  | _ :: rest, Nat.succ k => pyReplaceAux pat rep rest k
  | c :: rest, 0 =>
    if pat.isPrefixOf (c :: rest) then rep ++ pyReplaceAux pat rep rest (pat.length - 1)
    else c :: pyReplaceAux pat rep rest 0

/-- Python `s.replace(pat, rep)`: replaces occurrences left to right, without
overlap, and does not rescan the replacement text. -/
def pyReplace (pat rep s : List Char) : List Char :=
  pyReplaceAux pat rep s 0

/-- Python `pat in s` (substring containment). -/
def containsSub (s pat : List Char) : Bool :=
  match s with
  | [] => pat.isPrefixOf ([] : List Char)
  | _ :: rest => pat.isPrefixOf s || containsSub rest pat

/-- Python `s.find(pat)` restricted to found results: index of the first
occurrence of `pat` in `s`, or `none` (Python returns `-1`). -/
def findSub (s pat : List Char) : Option Nat :=
  match s with
  | [] => if pat.isPrefixOf ([] : List Char) then some 0 else none
  | _ :: rest =>
    if pat.isPrefixOf s then some 0
    else (findSub rest pat).map (· + 1)

/-- Python `s.split('\n')`. -/
def splitNl : List Char → List (List Char)
  | [] => [[]]
  | c :: rest =>
    if c = nlc then [] :: splitNl rest
    else
      match splitNl rest with
      | [] => [[c]]
      | h :: t => (c :: h) :: t

/-- Python `'\n'.join(lines)`. -/
def joinNl (lines : List (List Char)) : List Char :=
  List.intercalate [nlc] lines

/-- Number of leading spaces of a line, `len(line) - len(line.lstrip())` for the
space-indented lines produced by `json.dumps`. -/
def leadingSpaces (l : List Char) : Nat :=
  (l.takeWhile (· = spc)).length

/-- The pattern `{{` of the first replace in `escape` (source line 102). -/
def patOpen : List Char := "\x7b\x7b".toList

/-- The pattern `}}` of the second replace in `escape`. -/
def patClose : List Char := "\x7d\x7d".toList

/-- The intermediate text `{{`{{` produced by the first replace and matched by the third. -/
def patOpenMid : List Char := "\x7b\x7b\x60\x7b\x7b".toList

/-- The intermediate text `}}`}}` produced by the second replace and matched by the fourth. -/
def patCloseMid : List Char := "\x7d\x7d\x60\x7d\x7d".toList

/-- The Helm-engine-escaped form `{{`{{`}}` of a literal `{{`. -/
def escOpenForm : List Char := "\x7b\x7b\x60\x7b\x7b\x60\x7d\x7d".toList

/-- The Helm-engine-escaped form `{{`}}`}}` of a literal `}}`. -/
def escCloseForm : List Char := "\x7b\x7b\x60\x7d\x7d\x60\x7d\x7d".toList

/-- The backslash-escaped pair `\{\{` restored by `unescape`. -/
def bsOpen : List Char := "\\\x7b\\\x7b".toList

/-- The backslash-escaped pair `\}\}` restored by `unescape`. -/
def bsClose : List Char := "\\\x7d\\\x7d".toList

/-- Function `escape` from the source (line 101-102): four chained `str.replace` passes
that wrap every `{{` and `}}` in backtick raw markers for the Helm engine. -/
def escape (s : List Char) : List Char :=
  pyReplace patCloseMid escCloseForm
    (pyReplace patOpenMid escOpenForm
      (pyReplace patClose patCloseMid
        (pyReplace patOpen patOpenMid s)))

/-- Function `unescape` from the source (line 105-106): restores backslash-escaped
`\{\{` and `\}\}` to literal `{{` and `}}`. -/
def unescape (s : List Char) : List Char :=
  pyReplace bsClose patClose (pyReplace bsOpen patOpen s)

/-- The escape-then-unescape pass applied by `yaml_str_repr` (source lines
116-117) to the serialized text; yaml literal-block serialization and the final
`textwrap.indent` preserve the content's characters line by line, so this pass
is where all brace rewriting of the emitted content happens. -/
def emitEscapePass (s : List Char) : List Char :=
  unescape (escape s)

/-- Python exception classes relevant to the script. -/
inductive PyErr where
  | valueError
  | keyError
  | typeError
  | indexError
  | attributeError
deriving DecidableEq

deriving instance DecidableEq for Except

mutual
/-- A Python value as produced by `json.loads`: `None`, `bool`, `int`
(floats are outside the modelled subset), `str`, `list`, `dict`. -/
inductive JVal where
  | null
  | bool (b : Bool)
  | num (n : Int)
  | str (s : List Char)
  | arr (xs : JArr)
  | obj (fs : JObj)
/-- A Python list of JSON values. -/
inductive JArr where
  | nil
  | cons (v : JVal) (rest : JArr)
/-- A Python dict with string keys, in insertion order; keys are unique
because the parser and all updates go through `objSet`. -/
inductive JObj where
  | nil
  | cons (k : List Char) (v : JVal) (rest : JObj)
end

/-- First value bound to `key`, if any (keys are unique in parsed objects). -/
def objFind : JObj → List Char → Option JVal
  | .nil, _ => none
  | .cons k v rest, key => if k = key then some v else objFind rest key

/-- Python dict assignment `d[key] = val`: updates the value in place if the
key exists (keeping its position), otherwise appends the new key at the end. -/
def objSet : JObj → List Char → JVal → JObj
  | .nil, key, val => .cons key val .nil
  | .cons k v rest, key, val =>
    if k = key then .cons k val rest else .cons k v (objSet rest key val)

/-- Python subscription `v[key]` with a string key: `KeyError` when a dict
lacks the key, `TypeError` when `v` is not a dict. -/
def pyGetItem (v : JVal) (key : List Char) : Except PyErr JVal :=
  match v with
  | .obj fs =>
    match objFind fs key with
    | some x => .ok x
    | none => .error .keyError
  | _ => .error .typeError

/-- Python subscription-assignment `v[key] = x` on a dict; identity on other
values (only reached after a successful `v[key]` in the script). -/
def pySetItem (v : JVal) (key : List Char) (x : JVal) : JVal :=
  match v with
  | .obj fs => .obj (objSet fs key x)
  | other => other

/-- Python `v.get(key)`: only dicts have `.get`, every other value raises
`AttributeError`. -/
def pyDictGet (v : JVal) (key : List Char) : Except PyErr (Option JVal) :=
  match v with
  | .obj fs => .ok (objFind fs key)
  | _ => .error .attributeError

/-- Python `bool(x)` on the result of `.get` (with `none` for `None`). -/
def truthy : Option JVal → Bool
  | none => false
  | some .null => false
  | some (.bool b) => b
  | some (.num n) => n != 0
  | some (.str s) => !s.isEmpty
  | some (.arr .nil) => false
  | some (.arr (.cons _ _)) => true
  | some (.obj .nil) => false
  | some (.obj (.cons _ _ _)) => true

/-- JSON whitespace skipping. -/
def skipWs : List Char → List Char
  | [] => []
  | c :: rest =>
    if c = spc ∨ c = '\t' ∨ c = nlc ∨ c = '\r' then skipWs rest else c :: rest

/-- Decoded character of a string escape `\e`, if `e` is in the modelled
subset (`\uXXXX` is outside it). -/
def escDecode (e : Char) : Option Char :=
  if e = dq then some dq
  else if e = bs then some bs
  else if e = '/' then some '/'
  else if e = 'n' then some nlc
  else if e = 't' then some '\t'
  else if e = 'r' then some '\r'
  else if e = 'b' then some (Char.ofNat 8)
  else if e = 'f' then some (Char.ofNat 12)
  else none

/-- Parses a JSON string body after the opening quote; returns the decoded
content and the input after the closing quote. -/
def parseStringBody : List Char → Option (List Char × List Char)
  | [] => none
  | c :: rest =>
    if c = dq then some ([], rest)
    else if c = bs then
      match rest with
      | [] => none
      | e :: rest2 =>
        match escDecode e with
        | none => none
        | some d => (parseStringBody rest2).map fun p => (d :: p.1, p.2)
    else (parseStringBody rest).map fun p => (c :: p.1, p.2)

/-- Splits a maximal run of decimal digits off the front of the input. -/
def takeDigits : List Char → (List Char × List Char)
  | [] => ([], [])
  | c :: rest =>
    if c.isDigit then
      let p := takeDigits rest
      (c :: p.1, p.2)
    else ([], c :: rest)

/-- Decimal digits to a natural number. -/
def digitsToNat (ds : List Char) : Nat :=
  ds.foldl (fun a c => a * 10 + (c.toNat - 48)) 0

mutual
/-- Fuel-based recursive-descent JSON value parser mirroring `json.loads` on
the modelled subset. -/
def parseVal : Nat → List Char → Option (JVal × List Char)
  | 0, _ => none
  | Nat.succ f, l =>
    match skipWs l with
    | [] => none
    | c :: rest =>
      if c = lb then
        match skipWs rest with
        | [] => none
        | c2 :: rest2 =>
          if c2 = rb then some (.obj .nil, rest2)
          else (parseObjItems f (c2 :: rest2) .nil).map fun p => (.obj p.1, p.2)
      else if c = '[' then
        match skipWs rest with
        | [] => none
        | c2 :: rest2 =>
          if c2 = ']' then some (.arr .nil, rest2)
          else (parseArrItems f (c2 :: rest2)).map fun p => (.arr p.1, p.2)
      else if c = dq then
        (parseStringBody rest).map fun p => (.str p.1, p.2)
      else if c = '-' then
        match takeDigits rest with
        | ([], _) => none
        | (ds, r) => some (.num (-(digitsToNat ds : Int)), r)
      else if c.isDigit then
        match takeDigits (c :: rest) with
        | (ds, r) => some (.num (digitsToNat ds), r)
      else if ("true".toList).isPrefixOf (c :: rest) then
        some (.bool true, (c :: rest).drop 4)
      else if ("false".toList).isPrefixOf (c :: rest) then
        some (.bool false, (c :: rest).drop 5)
      else if ("null".toList).isPrefixOf (c :: rest) then
        some (.null, (c :: rest).drop 4)
      else none
/-- Parses the non-empty item list of a JSON array, up to and including `]`. -/
def parseArrItems : Nat → List Char → Option (JArr × List Char)
  | 0, _ => none
  | Nat.succ f, l =>
    match parseVal f l with
    | none => none
    | some (v, r) =>
      match skipWs r with
      | [] => none
      | c :: rest =>
        if c = cmc then (parseArrItems f rest).map fun p => (.cons v p.1, p.2)
        else if c = ']' then some (.cons v .nil, rest)
        else none
/-- Parses the non-empty member list of a JSON object, up to and including
`}`; duplicate keys override in place, as for a Python dict. -/
def parseObjItems : Nat → List Char → JObj → Option (JObj × List Char)
  | 0, _, _ => none
  | Nat.succ f, l, acc =>
    match skipWs l with
    | [] => none
    | c :: rest =>
      if c = dq then
        match parseStringBody rest with
        | none => none
        | some (k, r) =>
          match skipWs r with
          | [] => none
          | c2 :: rest2 =>
            if c2 = ':' then
              match parseVal f rest2 with
              | none => none
              | some (v, r2) =>
                match skipWs r2 with
                | [] => none
                | c3 :: rest3 =>
                  if c3 = cmc then parseObjItems f rest3 (objSet acc k v)
                  else if c3 = rb then some (objSet acc k v, rest3)
                  else none
            else none
      else none
end

/-- Model of `json.loads` on the modelled subset: parses one JSON value and requires
only whitespace after it; every failure is a `ValueError`
(`json.JSONDecodeError` subclasses `ValueError`). -/
def pyLoads (s : List Char) : Except PyErr JVal :=
  match parseVal (2 * s.length + 4) s with
  | some (v, rest) => if (skipWs rest).isEmpty then .ok v else .error .valueError
  | none => .error .valueError

/-- JSON string-character escaping used by `json.dumps` (modelled subset). -/
def escJsonChar (c : Char) : List Char :=
  if c = dq then [bs, dq]
  else if c = bs then [bs, bs]
  else if c = nlc then [bs, 'n']
  else if c = '\t' then [bs, 't']
  else if c = '\r' then [bs, 'r']
  else [c]

/-- Rendering of a string value by `json.dumps`. -/
def dumpJStr (s : List Char) : List Char :=
  dq :: (s.map escJsonChar).flatten ++ [dq]

/-- Python `str(int)`. -/
def intChars (n : Int) : List Char :=
  if n < 0 then '-' :: Nat.toDigits 10 n.natAbs else Nat.toDigits 10 n.toNat

/-- A run of `n` spaces. -/
def pad (n : Nat) : List Char := List.replicate n spc

mutual
/-- Model of `json.dumps(v, indent=4)` at enclosing indentation `ind`: empty
containers print as `{}`/`[]` on the current line, non-empty containers
put each item on its own line indented four further spaces. -/
def dumpVal : JVal → Nat → List Char
  | .null, _ => "null".toList
  | .bool true, _ => "true".toList
  | .bool false, _ => "false".toList
  | .num n, _ => intChars n
  | .str s, _ => dumpJStr s
  | .arr .nil, _ => "[]".toList
  | .arr (.cons v rest), ind =>
    '[' :: nlc :: (dumpArrItems (.cons v rest) (ind + 4) ++ nlc :: pad ind ++ [']'])
  | .obj .nil, _ => [lb, rb]
  | .obj (.cons k v rest), ind =>
    lb :: nlc :: (dumpObjItems (.cons k v rest) (ind + 4) ++ nlc :: pad ind ++ [rb])
/-- The comma-and-newline separated items of a non-empty list. -/
def dumpArrItems : JArr → Nat → List Char
  | .nil, _ => []
  | .cons v .nil, ind => pad ind ++ dumpVal v ind
  | .cons v (.cons w rest), ind =>
    pad ind ++ dumpVal v ind ++ cmc :: nlc :: dumpArrItems (.cons w rest) ind
/-- The comma-and-newline separated `"key": value` members of a non-empty dict. -/
def dumpObjItems : JObj → Nat → List Char
  | .nil, _ => []
  | .cons k v .nil, ind => pad ind ++ dumpJStr k ++ ':' :: spc :: dumpVal v ind
  | .cons k v (.cons k2 v2 rest), ind =>
    pad ind ++ dumpJStr k ++ ':' :: spc :: dumpVal v ind ++
      cmc :: nlc :: dumpObjItems (.cons k2 v2 rest) ind
end

/-- Model of `json.dumps(v, indent=4)` as called by the script. -/
def pyDumps4 (v : JVal) : List Char := dumpVal v 0

/-- The sentinel marker `':multicluster:'` written into the `hide` field. -/
def sentinel : List Char := ":multicluster:".toList

/-- The replacement text of source line 154, the backslash-escaped Helm
conditional `\{\{ if .Values.grafana.sidecar.dashboards.multicluster \}\}0\{\{ else \}\}2\{\{ end \}\}`. -/
def condChars : List Char :=
  ("\\\x7b\\\x7b if .Values.grafana.sidecar.dashboards.multicluster " ++
   "\\\x7d\\\x7d0\\\x7b\\\x7b else \\\x7d\\\x7d2\\\x7b\\\x7b end \\\x7d\\\x7d").toList

/-- The empty-object literal `{}` tested for by the reconciliation loop. -/
def emptyObjLit : List Char := [lb, rb]

/-- The empty-array literal `[]` tested for by the reconciliation loop. -/
def emptyArrLit : List Char := "[]".toList

/-- Test `'[]' in line or '{}' in line` (negation of the keep-condition of source line 134). -/
def lineHasEmptyLit (line : List Char) : Bool :=
  containsSub line emptyArrLit || containsSub line emptyObjLit

/-- The line-level reconciliation loop of the multicluster patch (source
lines 131-147): a line without an empty-container literal, or equal to the
original line at the same index, is kept; otherwise the trailing comma is
stripped, and a line then ending in `{}` or `[]` is split into the line
without its closing bracket, a blank line, and the closing bracket at the
line's indentation with the comma restored — while a differing line whose
literal is not at the end is appended nowhere, i.e. dropped.  Indexing the
original lines out of range raises `IndexError`. -/
def reconcileLines (orig : List (List Char)) : Nat → List (List Char) → Except PyErr (List (List Char))
  | _, [] => .ok []
  | i, line :: rest =>
    if !lineHasEmptyLit line then
      (reconcileLines orig (i + 1) rest).map (line :: ·)
    else
      match orig[i]? with
      | none => .error .indexError
      | some ol =>
        if line = ol then (reconcileLines orig (i + 1) rest).map (line :: ·)
        else
          let hasComma := line.getLast? = some cmc
          let stripped := if hasComma then line.dropLast else line
          let app : List Char := if hasComma then [cmc] else []
          let emitted : List (List Char) :=
            if emptyObjLit.isSuffixOf stripped || emptyArrLit.isSuffixOf stripped then
              [stripped.dropLast, [],
               pad (leadingSpaces stripped) ++ [stripped.getLast?.getD spc] ++ app]
            else []
          (reconcileLines orig (i + 1) rest).map (emitted ++ ·)

/-- One `templating.list` entry of the patch loop (source lines 126-129):
`variable['name']` is read (KeyError / TypeError propagate) and when it
equals `'cluster'` the entry's `hide` is set to the sentinel. -/
def patchVar (v : JVal) : Except PyErr JVal := do
  let nameVal ← pyGetItem v ("name".toList)
  match nameVal with
  | .str s =>
    if s = "cluster".toList then pure (pySetItem v ("hide".toList) (.str sentinel))
    else pure v
  | _ => pure v

/-- The rebuilt `overwrite_list` of the patch loop. -/
def patchVars : JArr → Except PyErr JArr
  | .nil => .ok .nil
  | .cons v rest => do
    let v' ← patchVar v
    let rest' ← patchVars rest
    pure (.cons v' rest')

/-- The sentinel search-and-replace of source lines 150-156: the slice
`content[:p-1]` also consumes the character before the sentinel (its opening
quote) and `content[p+15:]` skips the 14 sentinel characters plus the closing
quote.  `p = 0` would be Python's negative slice `content[:-1]`; it is
modelled faithfully though unreachable for serialized dashboards. -/
def sentinelReplace (content : List Char) : List Char :=
  match findSub content sentinel with
  | none => content
  | some p =>
    (if p = 0 then content.dropLast else content.take (p - 1)) ++
      condChars ++ content.drop (p + 15)

/-- Source lines 123-148 of `patch_json_for_multicluster_configuration`:
parse, mark the `cluster` variables, re-serialize, reconcile lines, join —
the value of the Python variable `content` after line 148, before the
sentinel replacement.  Errors carry the value of `content` at raise time;
every raise site runs before `content` is reassigned on source line 148, so
the carried value is always the original argument. -/
def patchSerialize (content : List Char) : Except (PyErr × List Char) (List Char) :=
  match pyLoads content with
  | .error _ => .error (.valueError, content)
  | .ok cs =>
    match pyGetItem cs ("templating".toList) with
    | .error e => .error (e, content)
    | .ok templ =>
      match pyGetItem templ ("list".toList) with
      | .error e => .error (e, content)
      | .ok lst =>
        match lst with
        | .arr vars =>
          match patchVars vars with
          | .error e => .error (e, content)
          | .ok newVars =>
            match reconcileLines (splitNl content) 0
                (splitNl (pyDumps4 (pySetItem cs ("templating".toList)
                  (pySetItem templ ("list".toList) (.arr newVars))))) with
            | .error e => .error (e, content)
            | .ok outLines => .ok (joinNl outLines)
        | _ => .error (.typeError, content)

/-- The `try:` block of `patch_json_for_multicluster_configuration` (source
lines 123-156): the serialization-and-reconciliation part followed by the
sentinel search-and-replace. -/
def patchTry (content : List Char) : Except (PyErr × List Char) (List Char) :=
  match patchSerialize content with
  | .error e => .error e
  | .ok t => .ok (sentinelReplace t)

/-- Function `patch_json_for_multicluster_configuration` (source lines 122-160):
`except (ValueError, KeyError): pass` returns the current `content`; other
exceptions (IndexError, TypeError) propagate. -/
def patch_json_for_multicluster_configuration (content : List Char) : Except PyErr (List Char) :=
  match patchTry content with
  | .ok c => .ok c
  | .error (e, cur) =>
    if e = .valueError ∨ e = .keyError then .ok cur else .error e

/-- Whether a line is all-whitespace (`textwrap.indent` skips such lines). -/
def isBlankLine (l : List Char) : Bool :=
  l.all fun c => c = spc || c = '\t' || c = '\r'

/-- Model of `textwrap.indent(text, '  ')`: prefixes two spaces to every line that
contains a non-whitespace character. -/
def indentBy2 (text : List Char) : List Char :=
  joinNl ((splitNl text).map fun l => if isBlankLine l then l else spc :: spc :: l)

/-- Modelled from the spec: the external PyYAML dump of the single-entry
mapping `{key: LiteralStr(content)}` with `width=1000`,
`default_flow_style=False` and the literal `|` style registered by
`init_yaml_styles` — `key: |` (with chomping indicator `-` when the content
has no trailing newline) followed by the content lines indented two spaces.
`yaml.dump` is a library call, not repository code; no claim below depends
on the exact rendering. -/
def yamlDumpLiteral (key content : List Char) : List Char :=
  if content.getLast? = some nlc then
    key ++ ':' :: spc :: '|' :: [nlc] ++
      joinNl ((splitNl content.dropLast).map fun l =>
        if l.isEmpty then l else spc :: spc :: l) ++ [nlc]
  else
    key ++ ':' :: spc :: '|' :: '-' :: [nlc] ++
      joinNl ((splitNl content).map fun l =>
        if l.isEmpty then l else spc :: spc :: l) ++ [nlc]

/-- Function `yaml_str_repr` (source lines 109-119) for the single-entry literal-block
mapping built by `write_group_to_file`: yaml-dump, `escape`, `unescape`,
indent by two spaces. -/
def yaml_str_repr (key content : List Char) : List Char :=
  indentBy2 (unescape (escape (yamlDumpLiteral key content)))

/-- The `condition_map` table (source lines 61-72). -/
def condition_map : List (List Char × List Char) :=
  [("grafana-coredns-k8s".toList, " .Values.coreDns.enabled".toList),
   ("etcd".toList, " .Values.kubeEtcd.enabled".toList),
   ("apiserver".toList, " .Values.kubeApiServer.enabled".toList),
   ("controller-manager".toList, " .Values.kubeControllerManager.enabled".toList),
   ("kubelet".toList, " .Values.kubelet.enabled".toList),
   ("proxy".toList, " .Values.kubeProxy.enabled".toList),
   ("scheduler".toList, " .Values.kubeScheduler.enabled".toList),
   ("node-rsrc-use".toList, " (index .Values \"prometheus-node-exporter\" \"enabled\")".toList),
   ("node-cluster-rsrc-use".toList, " (index .Values \"prometheus-node-exporter\" \"enabled\")".toList),
   ("clusterbytenant".toList, " .Values.vmcluster.enabled".toList)]

/-- Lookup `condition_map.get(resource_name, '')` (source line 168). -/
def condLookup (name : List Char) : List Char :=
  ((condition_map.find? fun kv => kv.1 == name).map Prod.snd).getD []

/-- The `skip_list` table (source lines 55-58). -/
def skip_list : List (List Char) :=
  ["prometheus.json".toList, "prometheus-remote-write.json".toList]

/-- Header fragment before the interpolated resource name (source line 75-76);
the interpolation `header % {...}` is modelled post-formatting, with Python's
`%%s-%%s` already reduced to `%s-%s`. -/
def headerPieceA : List Char := "\x7b\x7b- /*\nGenerated from '".toList

/-- Header fragment between the name and the url of the provenance comment. -/
def headerPieceB : List Char := "' from ".toList

/-- Header fragment from after the url up to the condition interpolation
point of the top-level guard (source line 80). -/
def headerPieceC : List Char :=
  ("\nDo not change in-place! In order to change this file first read following link:\n" ++
   "https://github.com/VictoriaMetrics/helm-charts/tree/master/charts/victoria-metrics-k8s-stack/hack\n" ++
   "*/ -\x7d\x7d\n" ++
   "\x7b\x7b- if and .Values.grafana.enabled .Values.grafana.defaultDashboardsEnabled").toList

/-- Header fragment between the condition and the second name interpolation. -/
def headerPieceD : List Char :=
  (" \x7d\x7d\napiVersion: v1\nkind: ConfigMap\nmetadata:\n" ++
   "  namespace: \x7b\x7b .Release.Namespace \x7d\x7d\n" ++
   "  name: \x7b\x7b printf \"%s-%s\" (include \"victoria-metrics-k8s-stack.fullname\" $) \"").toList

/-- Header fragment after the second name interpolation through `data:`. -/
def headerPieceE : List Char :=
  ("\" | trunc 63 | trimSuffix \"-\" \x7d\x7d\n  labels:\n" ++
   "    \x7b\x7b- if $.Values.grafana.sidecar.dashboards.label \x7d\x7d\n" ++
   "    \x7b\x7b $.Values.grafana.sidecar.dashboards.label \x7d\x7d: \"1\"\n" ++
   "    \x7b\x7b- end \x7d\x7d\n" ++
   "    app: \x7b\x7b include \"victoria-metrics-k8s-stack.name\" $ \x7d\x7d-grafana\n" ++
   "\x7b\x7b include \"victoria-metrics-k8s-stack.labels\" $ | indent 4 \x7d\x7d\ndata:\n").toList

/-- Interpolation `header % {'name': .., 'url': .., 'condition': condition_map.get(.., '')}`
(source lines 75-93 and 165-169). -/
def headerFor (resourceName url : List Char) : List Char :=
  headerPieceA ++ resourceName ++ headerPieceB ++ url ++ headerPieceC ++
    condLookup resourceName ++ headerPieceD ++ resourceName ++ headerPieceE

/-- The fixed footer `'{{- end }}'` (source line 178). -/
def footerChars : List Char := "\x7b\x7b- end \x7d\x7d".toList

/-- Function `write_group_to_file` (source lines 163-190) as the (path, text) pair it
writes: header, patched content wrapped as a literal block keyed by
`<name>.json`, footer; the path is `destination/<name>.yaml`. -/
def write_group_to_file (resource_name content url destination : List Char) :
    Except PyErr (List Char × List Char) :=
  match patch_json_for_multicluster_configuration content with
  | .error e => .error e
  | .ok content2 =>
    let text := headerFor resource_name url ++
      yaml_str_repr (resource_name ++ ".json".toList) content2 ++ footerChars
    .ok (destination ++ '/' :: (resource_name ++ ".yaml".toList), text)

/-- A source descriptor type, `'yaml'` or `'json'`. -/
inductive CType where
  | yaml
  | json
deriving DecidableEq

/-- One entry of the `charts` source list. -/
structure Chart where
  source : List Char
  destination : List Char
  ctype : CType

/-- An HTTP response as seen by `main` (`requests.get`). -/
structure HttpResp where
  status : Nat
  text : List Char

/-- The `charts` source list (source lines 27-53). -/
def chartsList : List Chart :=
  [⟨("https://raw.githubusercontent.com/prometheus-operator/kube-prometheus/" ++
     "master/manifests/grafana-dashboardDefinitions.yaml").toList,
    "../templates/grafana/dashboards".toList, .yaml⟩,
   ⟨"https://etcd.io/docs/v3.4/op-guide/grafana.json".toList,
    "../templates/grafana/dashboards".toList, .json⟩,
   ⟨("https://raw.githubusercontent.com/VictoriaMetrics/VictoriaMetrics/" ++
     "master/dashboards/victoriametrics.json").toList,
    "../templates/grafana/dashboards".toList, .json⟩,
   ⟨("https://raw.githubusercontent.com/VictoriaMetrics/VictoriaMetrics/" ++
     "master/dashboards/vmagent.json").toList,
    "../templates/grafana/dashboards".toList, .json⟩,
   ⟨("https://raw.githubusercontent.com/VictoriaMetrics/VictoriaMetrics/" ++
     "cluster/dashboards/clusterbytenant.json").toList,
    "../templates/grafana/dashboards".toList, .json⟩]

/-- Model of `os.path.basename` for the URL strings used here: the part after the
last `/`. -/
def pyBasename (url : List Char) : List Char :=
  (url.splitOn '/').getLast?.getD []

/-- The line `print("Generating dashboards from %s" % chart['source'])`. -/
def genMsg (src : List Char) : List Char :=
  "Generating dashboards from ".toList ++ src

/-- The line `print('Skipping the file, response code %s not equals 200' % status)`. -/
def skipMsg (status : Nat) : List Char :=
  "Skipping the file, response code ".toList ++ Nat.toDigits 10 status ++
    " not equals 200".toList

/-- The line `print("Generated %s" % new_filename)`. -/
def wroteMsg (fn : List Char) : List Char := "Generated ".toList ++ fn

/-- The inner `for resource, content in group['data'].items()` loop of the
yaml branch (source lines 208-211): skip-listed resources are dropped,
every other resource is written; a non-string content would reach
`json.loads` inside the patch and raise `TypeError`. -/
def processYamlData (url dest : List Char) : JObj → Except PyErr (List (List Char × List Char))
  | .nil => .ok []
  | .cons resource v rest =>
    if skip_list.contains resource then processYamlData url dest rest
    else
      match v with
      | .str content =>
        match write_group_to_file (pyReplace (".json".toList) [] resource) content url dest with
        | .error e => .error e
        | .ok f => (processYamlData url dest rest).map (f :: ·)
      | _ => .error .typeError

/-- The outer `for group in groups` loop of the yaml branch (source lines
207-211); `group['data']` must be a dict for `.items()`. -/
def processYamlGroups (url dest : List Char) : JArr → Except PyErr (List (List Char × List Char))
  | .nil => .ok []
  | .cons g rest =>
    match pyGetItem g ("data".toList) with
    | .error e => .error e
    | .ok dataV =>
      match dataV with
      | .obj fields =>
        match processYamlData url dest fields with
        | .error e => .error e
        | .ok fs => (processYamlGroups url dest rest).map (fs ++ ·)
      | _ => .error .attributeError

/-- The `for resource, content in json_text.items()` loop of the nested json
branch (source lines 219-221): every top-level key is written, with no
skip-list check. -/
def processNestedFields (url dest : List Char) : JObj → Except PyErr (List (List Char × List Char))
  | .nil => .ok []
  | .cons resource v rest =>
    match write_group_to_file (pyReplace (".json".toList) [] resource) (pyDumps4 v) url dest with
    | .error e => .error e
    | .ok f => (processNestedFields url dest rest).map (f :: ·)

/-- One iteration of the `main` loop for one source (source lines 196-221),
with `yaml.full_load` supplied as a parameter (it is an external library) and
the HTTP response as data.  Returns the (path, text) pairs written and the
lines printed; on an uncaught exception the run aborts and pending prints are
not modelled. -/
def runChart (yamlLoad : List Char → Except PyErr JVal) (c : Chart) (r : HttpResp) :
    Except PyErr (List (List Char × List Char) × List (List Char)) :=
  if r.status ≠ 200 then .ok ([], [genMsg c.source, skipMsg r.status])
  else
    match c.ctype with
    | .yaml =>
      match yamlLoad r.text with
      | .error e => .error e
      | .ok doc =>
        match pyGetItem doc ("items".toList) with
        | .error e => .error e
        | .ok itemsV =>
          match itemsV with
          | .arr groups =>
            (processYamlGroups c.source c.destination groups).map
              fun fs => (fs, genMsg c.source :: fs.map fun f => wroteMsg f.1)
          | _ => .error .typeError
    | .json =>
      match pyLoads r.text with
      | .error e => .error e
      | .ok v =>
        match pyDictGet v ("annotations".toList) with
        | .error e => .error e
        | .ok av =>
          if truthy av then
            match write_group_to_file (pyReplace (".json".toList) [] (pyBasename c.source))
                (pyDumps4 v) c.source c.destination with
            | .error e => .error e
            | .ok f => .ok ([f], [genMsg c.source, wroteMsg f.1])
          else
            match v with
            | .obj fields =>
              (processNestedFields c.source c.destination fields).map
                fun fs => (fs, genMsg c.source :: fs.map fun f => wroteMsg f.1)
            | _ => .error .typeError

/-- The `main` loop (source lines 196-222) over (chart, response) pairs,
concatenating written files and printed lines, ending with `Finished`. -/
def runMain (yamlLoad : List Char → Except PyErr JVal) :
    List (Chart × HttpResp) → Except PyErr (List (List Char × List Char) × List (List Char))
  | [] => .ok ([], ["Finished".toList])
  | (c, r) :: rest =>
    match runChart yamlLoad c r with
    | .error e => .error e
    | .ok (fs, ls) =>
      match runMain yamlLoad rest with
      | .error e => .error e
      | .ok p => .ok (fs ++ p.1, ls ++ p.2)

/-- A filesystem as a map from path to file contents. -/
def FS : Type := List Char → Option (List Char)

/-- Model of `open(path, 'w'); f.write(text)`: create or truncate (source lines
186-188; `makedirs(..., exist_ok=True)` makes directory creation a no-op on
this map). -/
def writeFile (f : FS) (w : List Char × List Char) : FS :=
  fun n => if n = w.1 then some w.2 else f n

/-- The filesystem after a run's writes, applied in order. -/
def applyWrites (f : FS) (ws : List (List Char × List Char)) : FS :=
  ws.foldl writeFile f

theorem pyReplaceAux_skip (pat rep : List Char) (s : List Char) :
    ∀ (k : Nat), pyReplaceAux pat rep s k = pyReplaceAux pat rep (s.drop k) 0 := by
  induction s with
  | nil => intro k; simp [pyReplaceAux]
  | cons c rest ih =>
    intro k
    cases k with
    | zero => rfl
    | succ k => simpa [pyReplaceAux] using ih k

theorem pyReplace_nil (pat rep : List Char) : pyReplace pat rep [] = [] := rfl

theorem pyReplace_cons_pos {pat : List Char} (rep : List Char) {c : Char} {rest : List Char}
    (h : pat.isPrefixOf (c :: rest) = true) (hne : pat ≠ []) :
    pyReplace pat rep (c :: rest) = rep ++ pyReplace pat rep ((c :: rest).drop pat.length) := by
  obtain ⟨p0, pt, rfl⟩ : ∃ p0 pt, pat = p0 :: pt := by
    cases pat with
    | nil => exact absurd rfl hne
    | cons p0 pt => exact ⟨p0, pt, rfl⟩
  show pyReplaceAux (p0 :: pt) rep (c :: rest) 0 = _
  simp only [pyReplaceAux, h, if_true]
  rw [pyReplaceAux_skip]
  simp [pyReplace, List.length_cons, List.drop_succ_cons]

theorem pyReplace_cons_neg {pat : List Char} (rep : List Char) {c : Char} {rest : List Char}
    (h : pat.isPrefixOf (c :: rest) = false) :
    pyReplace pat rep (c :: rest) = c :: pyReplace pat rep rest := by
  show pyReplaceAux pat rep (c :: rest) 0 = _
  simp [pyReplaceAux, h, pyReplace]

theorem pyReplace_of_head_not_mem {p0 : Char} {pt : List Char} (rep : List Char) :
    ∀ (s : List Char), p0 ∉ s → pyReplace (p0 :: pt) rep s = s := by
  intro s
  induction s with
  | nil => intro _; rfl
  | cons d rest ih =>
    intro h
    have hd : p0 ≠ d := fun e => h (e ▸ List.mem_cons_self d rest)
    have hpre : (p0 :: pt).isPrefixOf (d :: rest) = false := by
      rcases hx : (p0 :: pt).isPrefixOf (d :: rest) with _ | _
      · rfl
      · exfalso
        have := List.isPrefixOf_iff_prefix.mp hx
        rw [List.cons_prefix_cons] at this
        exact hd this.1
    rw [pyReplace_cons_neg rep hpre, ih (fun hm => h (List.mem_cons_of_mem _ hm))]

theorem pyReplace_append (pat rep : List Char) (hne : pat ≠ []) :
    ∀ (a b : List Char),
      (∀ p₁ p₂, pat = p₁ ++ p₂ → p₁ ≠ [] → p₂ ≠ [] → ¬(p₁ <:+ a ∧ p₂ <+: b)) →
      pyReplace pat rep (a ++ b) = pyReplace pat rep a ++ pyReplace pat rep b := by
  suffices H : ∀ (n : Nat) (a b : List Char), a.length ≤ n →
      (∀ p₁ p₂, pat = p₁ ++ p₂ → p₁ ≠ [] → p₂ ≠ [] → ¬(p₁ <:+ a ∧ p₂ <+: b)) →
      pyReplace pat rep (a ++ b) = pyReplace pat rep a ++ pyReplace pat rep b by
    exact fun a b h => H a.length a b le_rfl h
  intro n
  induction n with
  | zero =>
    intro a b ha _
    have : a = [] := List.eq_nil_of_length_eq_zero (Nat.le_zero.mp ha)
    subst this
    simp [pyReplace_nil]
  | succ n ih =>
    intro a b ha hsplit
    match a, ha, hsplit with
    | [], _, _ => simp [pyReplace_nil]
    | c :: a', ha, hsplit =>
      show pyReplace pat rep (c :: (a' ++ b)) = pyReplace pat rep (c :: a') ++ pyReplace pat rep b
      by_cases hp : pat.isPrefixOf (c :: (a' ++ b)) = true
      · by_cases hpa : pat.isPrefixOf (c :: a') = true
        · have hlen : pat.length ≤ (c :: a').length :=
            (List.isPrefixOf_iff_prefix.mp hpa).length_le
          rw [pyReplace_cons_pos rep hp hne, pyReplace_cons_pos rep hpa hne]
          have hdrop : (c :: (a' ++ b)).drop pat.length =
              (c :: a').drop pat.length ++ b := by
            have : c :: (a' ++ b) = (c :: a') ++ b := rfl
            rw [this, List.drop_append_of_le_length hlen]
          rw [hdrop]
          have hlen2 : ((c :: a').drop pat.length).length ≤ n := by
            have h1 : pat.length ≥ 1 := by
              cases pat with
              | nil => exact absurd rfl hne
              | cons _ _ => simp
            have := List.length_drop pat.length (c :: a')
            simp only [List.length_cons] at this ha ⊢
            omega
          rw [ih ((c :: a').drop pat.length) b hlen2
            (fun p₁ p₂ he h1 h2 hc =>
              hsplit p₁ p₂ he h1 h2 ⟨hc.1.trans (List.drop_suffix _ _), hc.2⟩)]
          rw [List.append_assoc]
        · exfalso
          have hp' : pat <+: (c :: a') ++ b := List.isPrefixOf_iff_prefix.mp hp
          by_cases hl : pat.length ≤ (c :: a').length
          · have hpre : pat <+: c :: a' := by
              have h1 : pat = List.take pat.length ((c :: a') ++ b) :=
                List.prefix_iff_eq_take.mp hp'
              rw [List.take_append_of_le_length hl] at h1
              exact h1 ▸ List.take_prefix _ _
            exact hpa (List.isPrefixOf_iff_prefix.mpr hpre)
          · push_neg at hl
            obtain ⟨t, ht⟩ := hp'
            have htake : pat.take (c :: a').length = c :: a' := by
              have h1 := congrArg (List.take (c :: a').length) ht
              rw [List.take_append_of_le_length (Nat.le_of_lt hl), List.take_left] at h1
              exact h1
            have hsp : pat = (c :: a') ++ pat.drop (c :: a').length := by
              conv_lhs => rw [← List.take_append_drop (c :: a').length pat]
              rw [htake]
            have hp2b : pat.drop (c :: a').length <+: b := by
              refine ⟨t, ?_⟩
              have h2 : (c :: a') ++ (pat.drop (c :: a').length ++ t) = (c :: a') ++ b := by
                rw [← List.append_assoc, ← hsp]
                exact ht
              exact List.append_cancel_left h2
            have hp2ne : pat.drop (c :: a').length ≠ [] := by
              have : 0 < (pat.drop (c :: a').length).length := by
                rw [List.length_drop]
                omega
              exact List.ne_nil_of_length_pos this
            exact hsplit (c :: a') (pat.drop (c :: a').length) hsp
              (List.cons_ne_nil c a') hp2ne ⟨List.suffix_refl _, hp2b⟩
      · have hp2 : pat.isPrefixOf (c :: (a' ++ b)) = false := by
          rcases hx : pat.isPrefixOf (c :: (a' ++ b)) with _ | _
          · rfl
          · exact absurd hx hp
        have hpa : pat.isPrefixOf (c :: a') = false := by
          rcases hx : pat.isPrefixOf (c :: a') with _ | _
          · rfl
          · exfalso
            have h1 : pat <+: c :: a' := List.isPrefixOf_iff_prefix.mp hx
            have h2 : pat <+: (c :: a') ++ b := h1.trans (List.prefix_append _ _)
            exact hp (List.isPrefixOf_iff_prefix.mpr h2)
        rw [pyReplace_cons_neg rep hp2, pyReplace_cons_neg rep hpa]
        rw [ih a' b (Nat.le_of_succ_le_succ (by simpa using ha))
          (fun p₁ p₂ he h1 h2 hc =>
            hsplit p₁ p₂ he h1 h2 ⟨hc.1.trans (List.suffix_cons c a'), hc.2⟩)]
        rfl

/-- The special characters of the emit pass: braces, backslash, backtick.
Every `escape`/`unescape` pattern consists only of these. -/
def specialChar (c : Char) : Bool := c = lb || c = rb || c = bs || c = bt

/-- A plain chunk: text without braces, backslashes or backticks. -/
def plainChunk (s : List Char) : Bool := s.all fun c => !specialChar c

/-- Well-formed segment list for the emit pass: every chunk is plain and
every chunk standing between two blocks is nonempty (so blocks never touch). -/
def chunksWF : List (List Char × List Char) → Bool
  | [] => true
  | (_, c) :: rest => plainChunk c && (rest.isEmpty || !c.isEmpty) && chunksWF rest

/-- Assembling text from a leading chunk and a list of (block, chunk) pairs. -/
def assembleSegs (c0 : List Char) : List (List Char × List Char) → List Char
  | [] => c0
  | (b, c) :: rest => c0 ++ b ++ assembleSegs c rest

/-- The brace tokens of the escaping round-trip claim. -/
inductive BraceTok where
  | open2
  | close2
  | escOpen2
  | escClose2

/-- Input text of a token: bare `{{`, bare `}}`, backslash-escaped `\{\{`,
backslash-escaped `\}\}`. -/
def tokIn : BraceTok → List Char
  | .open2 => patOpen
  | .close2 => patClose
  | .escOpen2 => bsOpen
  | .escClose2 => bsClose

/-- Output text of a token after the emit pass: bare pairs in engine-escaped
form, backslash-escaped pairs restored to literal braces. -/
def tokOut : BraceTok → List Char
  | .open2 => escOpenForm
  | .close2 => escCloseForm
  | .escOpen2 => patOpen
  | .escClose2 => patClose

theorem pyReplace_plain (pat rep : List Char) (hne : pat ≠ [])
    (hpat : ∀ c ∈ pat, specialChar c = true) (s : List Char)
    (hs : plainChunk s = true) : pyReplace pat rep s = s := by
  cases pat with
  | nil => exact absurd rfl hne
  | cons p0 pt =>
    apply pyReplace_of_head_not_mem
    intro hmem
    have h1 := hpat p0 (List.mem_cons_self p0 pt)
    have h2 := (List.all_eq_true.mp hs) p0 hmem
    rw [h1] at h2
    exact absurd h2 (by decide)

theorem not_suffix_of_plain {p l : List Char} (hp : p ≠ [])
    (hs : ∀ c ∈ p, specialChar c = true) (hl : plainChunk l = true) :
    ¬ p <:+ l := by
  intro hsuf
  cases p with
  | nil => exact hp rfl
  | cons d dt =>
    have hd : d ∈ l := hsuf.sublist.subset (List.mem_cons_self d dt)
    have h1 := hs d (List.mem_cons_self d dt)
    have h2 := (List.all_eq_true.mp hl) d hd
    rw [h1] at h2
    exact absurd h2 (by decide)

theorem assembleSegs_cons_head (x : Char) (cs : List Char) :
    ∀ (rest : List (List Char × List Char)),
      ∃ t, assembleSegs (x :: cs) rest = x :: t := by
  intro rest
  cases rest with
  | nil => exact ⟨cs, rfl⟩
  | cons bc r => exact ⟨cs ++ bc.1 ++ assembleSegs bc.2 r, by simp [assembleSegs]⟩

theorem pyReplace_assemble (pat rep : List Char) (hne : pat ≠ [])
    (hpat : ∀ c ∈ pat, specialChar c = true) :
    ∀ (ps : List (List Char × List Char)) (c0 : List Char),
      plainChunk c0 = true → chunksWF ps = true →
      pyReplace pat rep (assembleSegs c0 ps) =
        assembleSegs c0 (ps.map fun bc => (pyReplace pat rep bc.1, bc.2)) := by
  intro ps
  induction ps with
  | nil =>
    intro c0 h0 _
    simpa [assembleSegs] using pyReplace_plain pat rep hne hpat c0 h0
  | cons bc rest ih =>
    intro c0 h0 hwf
    obtain ⟨b, c⟩ := bc
    have hwf' : plainChunk c = true ∧ (rest.isEmpty || !c.isEmpty) = true ∧
        chunksWF rest = true := by
      have h := hwf
      simp only [chunksWF, Bool.and_eq_true] at h
      exact ⟨h.1.1, by simpa using h.1.2, h.2⟩
    have hsub : ∀ p₁ p₂, pat = p₁ ++ p₂ → (c' : List Char) → (∀ x ∈ p₁, x ∈ pat) := by
      intro p₁ p₂ he c'
      intro x hx
      rw [he]
      exact List.mem_append_left _ hx
    have step1 : pyReplace pat rep (assembleSegs c0 ((b, c) :: rest)) =
        pyReplace pat rep c0 ++ pyReplace pat rep (b ++ assembleSegs c rest) := by
      have hshape : assembleSegs c0 ((b, c) :: rest) = c0 ++ (b ++ assembleSegs c rest) := by
        simp [assembleSegs]
      rw [hshape]
      apply pyReplace_append pat rep hne
      intro p₁ p₂ he h1 _ hc
      refine not_suffix_of_plain h1 ?_ h0 hc.1
      intro x hx
      exact hpat x (he ▸ List.mem_append_left _ hx)
    have step2 : pyReplace pat rep (b ++ assembleSegs c rest) =
        pyReplace pat rep b ++ pyReplace pat rep (assembleSegs c rest) := by
      apply pyReplace_append pat rep hne
      intro p₁ p₂ he h1 h2 hc
      cases hcc : c with
      | nil =>
        have hrest : rest = [] := by
          rcases hwf'.2.1.symm with h
          rw [hcc] at h
          simp at h
          exact List.isEmpty_iff.mp (by simpa using h.symm)
        rw [hcc, hrest] at hc
        have : p₂ = [] := List.prefix_nil.mp (by simpa [assembleSegs] using hc.2)
        exact h2 this
      | cons x cs =>
        obtain ⟨t, ht⟩ := assembleSegs_cons_head x cs rest
        rw [hcc, ht] at hc
        cases p₂ with
        | nil => exact h2 rfl
        | cons d dt =>
          have hdx : d = x := (List.cons_prefix_cons.mp hc.2).1
          have hds : specialChar d = true :=
            hpat d (he ▸ List.mem_append_right _ (List.mem_cons_self d dt))
          have hxp : x ∈ c := by rw [hcc]; exact List.mem_cons_self x cs
          have h2x := (List.all_eq_true.mp hwf'.1) x hxp
          rw [← hdx, hds] at h2x
          exact absurd h2x (by decide)
    rw [step1, pyReplace_plain pat rep hne hpat c0 h0, step2,
      ih c hwf'.1 hwf'.2.2]
    simp [assembleSegs, List.append_assoc]

theorem chunksWF_map (g : List Char → List Char) :
    ∀ (ps : List (List Char × List Char)),
      chunksWF (ps.map fun bc => (g bc.1, bc.2)) = chunksWF ps := by
  intro ps
  induction ps with
  | nil => rfl
  | cons bc rest ih =>
    have hie : (rest.map fun bc => (g bc.1, bc.2)).isEmpty = rest.isEmpty := by
      cases rest <;> rfl
    simp only [List.map_cons, chunksWF, hie, ih]

theorem chunksWF_map_eq {α : Type} (g h : α → List Char) (ps : List (α × List Char)) :
    chunksWF (ps.map fun ac => (g ac.1, ac.2)) =
      chunksWF (ps.map fun ac => (h ac.1, ac.2)) := by
  induction ps with
  | nil => rfl
  | cons ac rest ih =>
    have hie : ∀ (f : α → List Char),
        (rest.map fun ac => (f ac.1, ac.2)).isEmpty = rest.isEmpty := by
      intro f; cases rest <;> rfl
    simp only [List.map_cons, chunksWF, hie, ih]

theorem emit_stage {α : Type} (pat rep : List Char) (hne : pat ≠ [])
    (hpat : ∀ c ∈ pat, specialChar c = true) (c0 : List Char) (g : α → List Char)
    (ps : List (α × List Char)) (h0 : plainChunk c0 = true)
    (hwf : chunksWF (ps.map fun ac => (g ac.1, ac.2)) = true) :
    pyReplace pat rep (assembleSegs c0 (ps.map fun ac => (g ac.1, ac.2))) =
      assembleSegs c0 (ps.map fun ac => (pyReplace pat rep (g ac.1), ac.2)) := by
  rw [pyReplace_assemble pat rep hne hpat _ c0 h0 hwf, List.map_map]
  rfl

theorem emitEscapePass_segs (c0 : List Char) (ps : List (BraceTok × List Char))
    (h0 : plainChunk c0 = true)
    (hwf : chunksWF (ps.map fun tc => (tokIn tc.1, tc.2)) = true) :
    emitEscapePass (assembleSegs c0 (ps.map fun tc => (tokIn tc.1, tc.2))) =
      assembleSegs c0 (ps.map fun tc => (tokOut tc.1, tc.2)) := by
  have e1 := emit_stage patOpen patOpenMid (by decide) (by decide) c0 tokIn ps h0 hwf
  have e2 := emit_stage patClose patCloseMid (by decide) (by decide) c0
    (fun t => pyReplace patOpen patOpenMid (tokIn t)) ps h0
    ((chunksWF_map_eq (fun t => pyReplace patOpen patOpenMid (tokIn t)) tokIn ps).trans hwf)
  have e3 := emit_stage patOpenMid escOpenForm (by decide) (by decide) c0
    (fun t => pyReplace patClose patCloseMid (pyReplace patOpen patOpenMid (tokIn t))) ps h0
    ((chunksWF_map_eq
      (fun t => pyReplace patClose patCloseMid (pyReplace patOpen patOpenMid (tokIn t)))
      tokIn ps).trans hwf)
  have e4 := emit_stage patCloseMid escCloseForm (by decide) (by decide) c0
    (fun t => pyReplace patOpenMid escOpenForm
      (pyReplace patClose patCloseMid (pyReplace patOpen patOpenMid (tokIn t)))) ps h0
    ((chunksWF_map_eq
      (fun t => pyReplace patOpenMid escOpenForm
        (pyReplace patClose patCloseMid (pyReplace patOpen patOpenMid (tokIn t))))
      tokIn ps).trans hwf)
  have e5 := emit_stage bsOpen patOpen (by decide) (by decide) c0
    (fun t => pyReplace patCloseMid escCloseForm (pyReplace patOpenMid escOpenForm
      (pyReplace patClose patCloseMid (pyReplace patOpen patOpenMid (tokIn t))))) ps h0
    ((chunksWF_map_eq
      (fun t => pyReplace patCloseMid escCloseForm (pyReplace patOpenMid escOpenForm
        (pyReplace patClose patCloseMid (pyReplace patOpen patOpenMid (tokIn t)))))
      tokIn ps).trans hwf)
  have e6 := emit_stage bsClose patClose (by decide) (by decide) c0
    (fun t => pyReplace bsOpen patOpen (pyReplace patCloseMid escCloseForm
      (pyReplace patOpenMid escOpenForm (pyReplace patClose patCloseMid
        (pyReplace patOpen patOpenMid (tokIn t)))))) ps h0
    ((chunksWF_map_eq
      (fun t => pyReplace bsOpen patOpen (pyReplace patCloseMid escCloseForm
        (pyReplace patOpenMid escOpenForm (pyReplace patClose patCloseMid
          (pyReplace patOpen patOpenMid (tokIn t))))))
      tokIn ps).trans hwf)
  show unescape (escape _) = _
  unfold escape unescape
  rw [e1, e2, e3, e4, e5, e6]
  have hfun : (fun tc : BraceTok × List Char =>
      (pyReplace bsClose patClose (pyReplace bsOpen patOpen (pyReplace patCloseMid escCloseForm
        (pyReplace patOpenMid escOpenForm (pyReplace patClose patCloseMid
          (pyReplace patOpen patOpenMid (tokIn tc.1)))))), tc.2)) =
      (fun tc : BraceTok × List Char => (tokOut tc.1, tc.2)) := by
    funext tc
    obtain ⟨t, ch⟩ := tc
    cases t <;> rfl
  rw [hfun]

theorem containsSub_iff (pat : List Char) :
    ∀ (s : List Char), containsSub s pat = true ↔ ∃ i, pat <+: s.drop i := by
  intro s
  induction s with
  | nil =>
    simp only [containsSub, List.isPrefixOf_iff_prefix, List.drop_nil, List.prefix_nil]
    exact ⟨fun h => ⟨0, h⟩, fun ⟨_, h⟩ => h⟩
  | cons c rest ih =>
    simp only [containsSub, Bool.or_eq_true, List.isPrefixOf_iff_prefix, ih]
    constructor
    · rintro (h | ⟨i, hi⟩)
      · exact ⟨0, h⟩
      · exact ⟨i + 1, by simpa using hi⟩
    · rintro ⟨i, hi⟩
      cases i with
      | zero => exact Or.inl (by simpa using hi)
      | succ j => exact Or.inr ⟨j, by simpa using hi⟩

theorem containsSub_eq_false (s pat : List Char) :
    containsSub s pat = false ↔ ∀ i, ¬ pat <+: s.drop i := by
  constructor
  · intro h i hp
    have h2 := (containsSub_iff pat s).mpr ⟨i, hp⟩
    rw [h] at h2
    exact Bool.false_ne_true h2
  · intro h
    cases hc : containsSub s pat
    · rfl
    · obtain ⟨i, hi⟩ := (containsSub_iff pat s).mp hc
      exact absurd hi (h i)

theorem containsSub_append_right (a b pat : List Char)
    (h : containsSub b pat = true) : containsSub (a ++ b) pat = true := by
  rw [containsSub_iff] at h ⊢
  obtain ⟨i, hi⟩ := h
  refine ⟨a.length + i, ?_⟩
  rwa [List.drop_append]

/-- No occurrence of the sentinel appears in `A ++ condChars ++ B` when none
appears in `A` or `B`: the sentinel starts and ends with `:` but the
conditional contains no colon, and the conditional starts with a backslash
which the sentinel does not contain, so no occurrence can overlap it. -/
theorem sentinel_not_in_splice (A B : List Char)
    (hA : containsSub A sentinel = false) (hB : containsSub B sentinel = false) :
    containsSub (A ++ (condChars ++ B)) sentinel = false := by
  rw [containsSub_eq_false] at hA hB ⊢
  intro i hp
  by_cases h1 : i + 14 ≤ A.length
  · refine hA i ?_
    have hiA : i ≤ A.length := by omega
    rw [List.drop_append_of_le_length hiA] at hp
    have hlen : sentinel.length ≤ (A.drop i).length := by
      rw [List.length_drop]
      have : sentinel.length = 14 := by decide
      omega
    have h2 := List.prefix_iff_eq_take.mp hp
    rw [List.take_append_of_le_length hlen] at h2
    exact h2 ▸ List.take_prefix _ _
  · by_cases h2 : A.length ≤ i
    · have hdrop : (A ++ (condChars ++ B)).drop i =
          (condChars ++ B).drop (i - A.length) := by
        have hi : i = A.length + (i - A.length) := by omega
        conv_lhs => rw [hi]
        exact List.drop_append _
      rw [hdrop] at hp
      by_cases h3 : i - A.length < condChars.length
      · exfalso
        obtain ⟨t, ht⟩ := hp
        have h0 : ((condChars ++ B).drop (i - A.length))[0]? = sentinel[0]? := by
          rw [← ht, List.getElem?_append_left (by decide : 0 < sentinel.length)]
        rw [List.getElem?_drop] at h0
        rw [List.getElem?_append_left (by omega : i - A.length + 0 < condChars.length)] at h0
        have hcolon : (':' : Char) ∈ condChars := by
          apply List.getElem?_mem
          rw [h0]
          decide
        exact absurd hcolon (by decide)
      · refine hB (i - A.length - condChars.length) ?_
        have hi2 : i - A.length = condChars.length + (i - A.length - condChars.length) := by
          omega
        have hx : (condChars ++ B).drop (i - A.length) =
            B.drop (i - A.length - condChars.length) := by
          conv_lhs => rw [hi2]
          exact List.drop_append _
        rwa [hx] at hp
    · exfalso
      push_neg at h1 h2
      have hgetL : (A ++ (condChars ++ B))[A.length]? = some bs := by
        have hr := @List.getElem?_append_right Char A (condChars ++ B) A.length le_rfl
        rw [hr]
        simp only [Nat.sub_self]
        rw [List.getElem?_append_left (by decide : 0 < condChars.length)]
        decide
      obtain ⟨t, ht⟩ := hp
      have hk : A.length - i < sentinel.length := by
        have : sentinel.length = 14 := by decide
        omega
      have hsget : ((A ++ (condChars ++ B)).drop i)[A.length - i]? =
          sentinel[A.length - i]? := by
        rw [← ht, List.getElem?_append_left hk]
      rw [List.getElem?_drop] at hsget
      have hidx : i + (A.length - i) = A.length := by omega
      rw [hidx, hgetL] at hsget
      have hmem : bs ∈ sentinel := List.getElem?_mem hsget.symm
      exact absurd hmem (by decide)

/-- The last write to a path in a write list, if any. -/
def lookupWrite : List (List Char × List Char) → List Char → Option (List Char)
  | [], _ => none
  | w :: rest, n =>
    match lookupWrite rest n with
    | some c => some c
    | none => if n = w.1 then some w.2 else none

theorem applyWrites_apply (ws : List (List Char × List Char)) :
    ∀ (f : FS) (n : List Char),
      applyWrites f ws n =
        match lookupWrite ws n with
        | some c => some c
        | none => f n := by
  induction ws with
  | nil => intro f n; rfl
  | cons w rest ih =>
    intro f n
    show applyWrites (writeFile f w) rest n = _
    rw [ih]
    simp only [lookupWrite]
    cases lookupWrite rest n with
    | some c => rfl
    | none =>
      show writeFile f w n = _
      unfold writeFile
      by_cases h : n = w.1 <;> simp [h]

theorem applyWrites_idem (f : FS) (ws : List (List Char × List Char)) :
    applyWrites (applyWrites f ws) ws = applyWrites f ws := by
  funext n
  rw [applyWrites_apply, applyWrites_apply]
  cases h : lookupWrite ws n <;> simp

/-- Modelled from the spec: the per-occurrence mapping described by the
escaping round-trip claim, scanning left to right — a backslash-escaped
`\{\{`/`\}\}` becomes literal `{{`/`}}`, any other `{{`/`}}` becomes its
engine-escaped form, every other character is copied (`k` counts characters
already consumed by a match). -/
def claimEscapeMapAux : List Char → Nat → List Char
  | [], _ => []
  | _ :: rest, Nat.succ k => claimEscapeMapAux rest k
  | c :: rest, 0 =>
    if bsOpen.isPrefixOf (c :: rest) then patOpen ++ claimEscapeMapAux rest 3
    else if bsClose.isPrefixOf (c :: rest) then patClose ++ claimEscapeMapAux rest 3
    else if patOpen.isPrefixOf (c :: rest) then escOpenForm ++ claimEscapeMapAux rest 1
    else if patClose.isPrefixOf (c :: rest) then escCloseForm ++ claimEscapeMapAux rest 1
    else c :: claimEscapeMapAux rest 0

/-- Modelled from the spec: see `claimEscapeMapAux`. -/
def claimEscapeMap (s : List Char) : List Char := claimEscapeMapAux s 0

theorem claimEscapeMapAux_skip (s : List Char) :
    ∀ (k : Nat), claimEscapeMapAux s k = claimEscapeMapAux (s.drop k) 0 := by
  induction s with
  | nil => intro k; simp [claimEscapeMapAux]
  | cons c rest ih =>
    intro k
    cases k with
    | zero => rfl
    | succ k => simpa [claimEscapeMapAux] using ih k

theorem isPrefixOf_head_ne {p0 c : Char} (pt l : List Char) (h : p0 ≠ c) :
    (p0 :: pt).isPrefixOf (c :: l) = false := by
  rw [List.isPrefixOf_cons₂]
  have hb : (p0 == c) = false := by
    simpa using h
  rw [hb, Bool.false_and]

theorem isPrefixOf_two_ne {p0 p1 c1 : Char} (pt l : List Char) (h2 : p1 ≠ c1) :
    (p0 :: p1 :: pt).isPrefixOf (p0 :: c1 :: l) = false := by
  rw [List.isPrefixOf_cons₂]
  have hb : (p0 == p0) = true := by simp
  rw [hb, Bool.true_and]
  exact isPrefixOf_head_ne pt l h2

theorem isPrefixOf_append_self (p r : List Char) : p.isPrefixOf (p ++ r) = true :=
  List.isPrefixOf_iff_prefix.mpr (List.prefix_append _ _)

theorem specialChar_false (c : Char) (h : specialChar c = false) :
    c ≠ lb ∧ c ≠ rb ∧ c ≠ bs ∧ c ≠ bt := by
  simp only [specialChar, Bool.or_eq_false_iff, decide_eq_false_iff_not] at h
  exact ⟨h.1.1.1, h.1.1.2, h.1.2, h.2⟩

theorem claimMap_plain_prepend (rest : List Char) :
    ∀ (c0 : List Char), plainChunk c0 = true →
      claimEscapeMapAux (c0 ++ rest) 0 = c0 ++ claimEscapeMapAux rest 0 := by
  intro c0
  induction c0 with
  | nil => intro _; rfl
  | cons c cs ih =>
    intro h0
    have hc : specialChar c = false := by
      have hmem := (List.all_eq_true.mp h0) c (List.mem_cons_self c cs)
      cases hx : specialChar c
      · rfl
      · rw [hx] at hmem; exact absurd hmem (by decide)
    obtain ⟨hlb, hrb, hbs, _⟩ := specialChar_false c hc
    have e1 : bsOpen.isPrefixOf (c :: (cs ++ rest)) = false := by
      rw [show bsOpen = bs :: [lb, bs, lb] from by decide]
      exact isPrefixOf_head_ne _ _ (Ne.symm hbs)
    have e2 : bsClose.isPrefixOf (c :: (cs ++ rest)) = false := by
      rw [show bsClose = bs :: [rb, bs, rb] from by decide]
      exact isPrefixOf_head_ne _ _ (Ne.symm hbs)
    have e3 : patOpen.isPrefixOf (c :: (cs ++ rest)) = false := by
      rw [show patOpen = lb :: [lb] from by decide]
      exact isPrefixOf_head_ne _ _ (Ne.symm hlb)
    have e4 : patClose.isPrefixOf (c :: (cs ++ rest)) = false := by
      rw [show patClose = rb :: [rb] from by decide]
      exact isPrefixOf_head_ne _ _ (Ne.symm hrb)
    have hplain : plainChunk cs = true := by
      simp only [plainChunk, List.all_cons, Bool.and_eq_true] at h0
      exact h0.2
    show claimEscapeMapAux (c :: (cs ++ rest)) 0 = _
    simp only [claimEscapeMapAux, e1, e2, e3, e4, if_false, Bool.false_eq_true]
    rw [ih hplain]
    rfl

theorem claimMap_token (t : BraceTok) (rest : List Char) :
    claimEscapeMapAux (tokIn t ++ rest) 0 = tokOut t ++ claimEscapeMapAux rest 0 := by
  cases t with
  | open2 =>
    show claimEscapeMapAux (lb :: ([lb] ++ rest)) 0 = _
    have e1 : bsOpen.isPrefixOf (lb :: ([lb] ++ rest)) = false := by
      rw [show bsOpen = bs :: [lb, bs, lb] from by decide]
      exact isPrefixOf_head_ne _ _ (by decide)
    have e2 : bsClose.isPrefixOf (lb :: ([lb] ++ rest)) = false := by
      rw [show bsClose = bs :: [rb, bs, rb] from by decide]
      exact isPrefixOf_head_ne _ _ (by decide)
    have e3 : patOpen.isPrefixOf (lb :: ([lb] ++ rest)) = true :=
      isPrefixOf_append_self patOpen rest
    simp only [claimEscapeMapAux, e1, e2, e3, if_false, if_true, Bool.false_eq_true]
    rw [claimEscapeMapAux_skip]
    rfl
  | close2 =>
    show claimEscapeMapAux (rb :: ([rb] ++ rest)) 0 = _
    have e1 : bsOpen.isPrefixOf (rb :: ([rb] ++ rest)) = false := by
      rw [show bsOpen = bs :: [lb, bs, lb] from by decide]
      exact isPrefixOf_head_ne _ _ (by decide)
    have e2 : bsClose.isPrefixOf (rb :: ([rb] ++ rest)) = false := by
      rw [show bsClose = bs :: [rb, bs, rb] from by decide]
      exact isPrefixOf_head_ne _ _ (by decide)
    have e3 : patOpen.isPrefixOf (rb :: ([rb] ++ rest)) = false := by
      rw [show patOpen = lb :: [lb] from by decide]
      exact isPrefixOf_head_ne _ _ (by decide)
    have e4 : patClose.isPrefixOf (rb :: ([rb] ++ rest)) = true :=
      isPrefixOf_append_self patClose rest
    simp only [claimEscapeMapAux, e1, e2, e3, e4, if_false, if_true, Bool.false_eq_true]
    rw [claimEscapeMapAux_skip]
    rfl
  | escOpen2 =>
    show claimEscapeMapAux (bs :: ([lb, bs, lb] ++ rest)) 0 = _
    have e1 : bsOpen.isPrefixOf (bs :: ([lb, bs, lb] ++ rest)) = true :=
      isPrefixOf_append_self bsOpen rest
    simp only [claimEscapeMapAux, e1, if_true]
    rw [claimEscapeMapAux_skip]
    rfl
  | escClose2 =>
    show claimEscapeMapAux (bs :: ([rb, bs, rb] ++ rest)) 0 = _
    have e1 : bsOpen.isPrefixOf (bs :: ([rb, bs, rb] ++ rest)) = false := by
      rw [show bsOpen = bs :: lb :: [bs, lb] from by decide]
      exact isPrefixOf_two_ne _ _ (by decide)
    have e2 : bsClose.isPrefixOf (bs :: ([rb, bs, rb] ++ rest)) = true :=
      isPrefixOf_append_self bsClose rest
    simp only [claimEscapeMapAux, e1, e2, if_false, if_true, Bool.false_eq_true]
    rw [claimEscapeMapAux_skip]
    rfl

theorem claimMap_segs :
    ∀ (ps : List (BraceTok × List Char)) (c0 : List Char),
      plainChunk c0 = true →
      chunksWF (ps.map fun tc => (tokIn tc.1, tc.2)) = true →
      claimEscapeMap (assembleSegs c0 (ps.map fun tc => (tokIn tc.1, tc.2))) =
        assembleSegs c0 (ps.map fun tc => (tokOut tc.1, tc.2)) := by
  intro ps
  induction ps with
  | nil =>
    intro c0 h0 _
    show claimEscapeMapAux c0 0 = c0
    have h := claimMap_plain_prepend [] c0 h0
    simpa [claimEscapeMapAux] using h
  | cons tc rest ih =>
    intro c0 h0 hwf
    obtain ⟨t, c⟩ := tc
    have hwf' : plainChunk c = true ∧
        chunksWF (rest.map fun tc => (tokIn tc.1, tc.2)) = true := by
      have h := hwf
      simp only [List.map_cons, chunksWF, Bool.and_eq_true] at h
      exact ⟨h.1.1, h.2⟩
    simp only [List.map_cons]
    have hshape : assembleSegs c0 ((tokIn t, c) :: rest.map fun tc => (tokIn tc.1, tc.2)) =
        c0 ++ (tokIn t ++ assembleSegs c (rest.map fun tc => (tokIn tc.1, tc.2))) := by
      simp [assembleSegs, List.append_assoc]
    have hshape2 : assembleSegs c0 ((tokOut t, c) :: rest.map fun tc => (tokOut tc.1, tc.2)) =
        c0 ++ (tokOut t ++ assembleSegs c (rest.map fun tc => (tokOut tc.1, tc.2))) := by
      simp [assembleSegs, List.append_assoc]
    rw [hshape, hshape2]
    show claimEscapeMapAux _ 0 = _
    rw [claimMap_plain_prepend _ c0 h0, claimMap_token t]
    have hrec := ih c hwf'.1 hwf'.2
    rw [show claimEscapeMapAux (assembleSegs c (rest.map fun tc => (tokIn tc.1, tc.2))) 0 =
        claimEscapeMap (assembleSegs c (rest.map fun tc => (tokIn tc.1, tc.2))) from rfl, hrec]

theorem patchSerialize_error_content (content cur : List Char) (e : PyErr)
    (h : patchSerialize content = .error (e, cur)) : cur = content := by
  unfold patchSerialize at h
  repeat' split at h
  all_goals
    first
    | (simp only [Except.error.injEq, Prod.mk.injEq] at h; exact h.2.symm)
    | exact (Except.noConfusion h)

/-- C4: if the multicluster patch raises a JSON parse error (`ValueError`)
or a missing-key error (`KeyError`), `patch_json_for_multicluster_configuration`
catches it and returns the original input content completely unchanged, so
the error does not propagate and the run continues. -/
theorem c4_patch_error_fallback (content cur : List Char) (e : PyErr)
    (hfail : patchSerialize content = .error (e, cur))
    (hkind : e = .valueError ∨ e = .keyError) :
    patch_json_for_multicluster_configuration content = .ok content := by
  have hcc := patchSerialize_error_content content cur e hfail
  unfold patch_json_for_multicluster_configuration patchTry
  simp only [hfail]
  rw [if_pos hkind, hcc]

/-- C4 witness: `{}` parses but lacks `templating`, raising `KeyError`; the
patch returns the input unchanged. -/
theorem c4_witness :
    patch_json_for_multicluster_configuration ("\x7b\x7d".toList) =
      .ok ("\x7b\x7d".toList) :=
  c4_patch_error_fallback ("\x7b\x7d".toList) ("\x7b\x7d".toList) PyErr.keyError
    (by decide) (Or.inr rfl)

/-- C6: for a source whose HTTP GET returns a status other than 200, no
output file is written for that source, the skip message is logged, and
`main` continues with the next source in declaration order. -/
theorem c6_non200_skip (yl : List Char → Except PyErr JVal) (c : Chart)
    (r : HttpResp) (rest : List (Chart × HttpResp)) (h : r.status ≠ 200) :
    runChart yl c r = .ok ([], [genMsg c.source, skipMsg r.status]) ∧
    runMain yl ((c, r) :: rest) =
      (match runMain yl rest with
       | .ok p => .ok (p.1, genMsg c.source :: skipMsg r.status :: p.2)
       | .error e => .error e) := by
  have h1 : runChart yl c r = .ok ([], [genMsg c.source, skipMsg r.status]) := by
    unfold runChart
    rw [if_pos h]
  refine ⟨h1, ?_⟩
  simp only [runMain, h1]
  cases runMain yl rest with
  | error e => rfl
  | ok p => rfl

/-- C6 witness at a concrete 503 response. -/
theorem c6_witness :
    runChart (fun _ => .error PyErr.valueError)
        ⟨"u".toList, "d".toList, CType.json⟩ ⟨503, []⟩ =
      .ok ([], [genMsg ("u".toList), skipMsg 503]) ∧
    runMain (fun _ => .error PyErr.valueError)
        [(⟨"u".toList, "d".toList, CType.json⟩, ⟨503, []⟩)] =
      (match runMain (fun _ => .error PyErr.valueError) [] with
       | .ok p => .ok (p.1, genMsg ("u".toList) :: skipMsg 503 :: p.2)
       | .error e => .error e) :=
  c6_non200_skip (fun _ => .error PyErr.valueError)
    ⟨"u".toList, "d".toList, CType.json⟩ ⟨503, []⟩ [] (by decide)

theorem containsSub_append_left (a b pat : List Char)
    (h : containsSub a pat = true) : containsSub (a ++ b) pat = true := by
  rw [containsSub_iff] at h ⊢
  obtain ⟨i, hi⟩ := h
  by_cases hli : i ≤ a.length
  · exact ⟨i, by
      rw [List.drop_append_of_le_length hli]
      exact hi.trans (List.prefix_append _ _)⟩
  · have hnil : a.drop i = [] := List.drop_eq_nil_of_le (by omega)
    rw [hnil, List.prefix_nil] at hi
    exact ⟨0, by rw [hi]; exact List.nil_prefix⟩

/-- C8: the generated header for resource name `etcd` carries the extra
guard clause `.Values.kubeEtcd.enabled` conjoined into its top-level
conditional, and for a resource name absent from the condition map the
condition interpolation is the empty string, so the header contains no
extra clause. -/
theorem c8_condition_map (url name : List Char)
    (habs : (condition_map.find? fun kv => kv.1 == name) = none) :
    containsSub (headerFor ("etcd".toList) url) (".Values.kubeEtcd.enabled".toList) = true ∧
    condLookup name = [] ∧
    headerFor name url =
      headerPieceA ++ name ++ headerPieceB ++ url ++ headerPieceC ++
        headerPieceD ++ name ++ headerPieceE := by
  have h2 : condLookup name = [] := by
    unfold condLookup
    rw [habs]
    rfl
  refine ⟨?_, h2, ?_⟩
  · unfold headerFor
    rw [show condLookup ("etcd".toList) = " .Values.kubeEtcd.enabled".toList from by decide]
    simp only [List.append_assoc]
    apply containsSub_append_right
    apply containsSub_append_right
    apply containsSub_append_right
    apply containsSub_append_right
    apply containsSub_append_right
    apply containsSub_append_left
    decide
  · unfold headerFor
    rw [h2]
    simp

/-- C8 witness: concrete absent name `foo` and empty url. -/
theorem c8_witness :
    containsSub (headerFor ("etcd".toList) []) (".Values.kubeEtcd.enabled".toList) = true ∧
    condLookup ("foo".toList) = [] ∧
    headerFor ("foo".toList) [] =
      headerPieceA ++ "foo".toList ++ headerPieceB ++ [] ++ headerPieceC ++
        headerPieceD ++ "foo".toList ++ headerPieceE :=
  c8_condition_map [] ("foo".toList) (by decide)

/-- C9: the text written for given inputs is a pure function of them, so for
a fixed set of upstream responses two runs write identical files: replaying
the same run's writes over the filesystem it already produced changes
nothing. -/
theorem c9_idempotent (yl : List Char → Except PyErr JVal)
    (pairs : List (Chart × HttpResp)) (f : FS)
    (files : List (List Char × List Char)) (logs : List (List Char))
    (_hrun : runMain yl pairs = .ok (files, logs)) :
    applyWrites (applyWrites f files) files = applyWrites f files :=
  applyWrites_idem f files

/-- C9 witness: the empty run over an empty filesystem. -/
theorem c9_witness :
    applyWrites (applyWrites (fun _ => none) []) [] =
      applyWrites (fun _ => none) [] :=
  c9_idempotent (fun _ => .error PyErr.valueError) [] (fun _ => none) []
    ["Finished".toList] (by decide)

/-- C1 counterexample: a nested JSON source (no `annotations` key) whose only
top-level key is the skip-listed `prometheus.json` still produces the output
file `d/prometheus.yaml` — the skip list is checked only in the yaml branch
(source lines 209-210), not in the nested json branch (lines 219-221). -/
theorem c1_counterexample :
    ("prometheus.json".toList ∈ skip_list) ∧
    (runChart (fun _ => .error PyErr.valueError)
        ⟨"https://x/n.json".toList, "d".toList, CType.json⟩
        ⟨200, "\x7b\"prometheus.json\": \x7b\x7d\x7d".toList⟩).map
        (fun p => p.1.map Prod.fst) =
      .ok ["d/prometheus.yaml".toList] := by
  constructor
  · decide
  · decide

/-- C1 amended: the skip set is applied only to the yaml branch — a
skip-listed resource in a yaml group's `data` produces no file — while for a
nested JSON source every top-level key, skip-listed or not, is written. -/
theorem c1_amended :
    (∀ (url dest k : List Char) (v : JVal) (rest : JObj),
      skip_list.contains k = true →
      processYamlData url dest (.cons k v rest) = processYamlData url dest rest) ∧
    (∀ (url dest k : List Char) (v : JVal) (rest : JObj) (f : List Char × List Char),
      write_group_to_file (pyReplace (".json".toList) [] k) (pyDumps4 v) url dest = .ok f →
      processNestedFields url dest (.cons k v rest) =
        (processNestedFields url dest rest).map (f :: ·)) := by
  constructor
  · intro url dest k v rest hk
    show (if skip_list.contains k then processYamlData url dest rest else _) = _
    rw [hk]
    rfl
  · intro url dest k v rest f hw
    show (match write_group_to_file (pyReplace (".json".toList) [] k) (pyDumps4 v) url dest with
          | Except.error e => (Except.error e : Except PyErr (List (List Char × List Char)))
          | Except.ok f => (processNestedFields url dest rest).map (f :: ·)) = _
    rw [hw]

/-- The file written for key `x` with content `{}` in the C1 witness. -/
def c1WitnessFile : List Char × List Char :=
  match write_group_to_file (pyReplace (".json".toList) [] ("x".toList))
      (pyDumps4 (JVal.obj .nil)) [] [] with
  | .ok f => f
  | .error _ => ([], [])

/-- C1 witness: both amended branches at concrete inputs. -/
theorem c1_witness :
    processYamlData [] [] (.cons ("prometheus.json".toList) JVal.null .nil) =
      processYamlData [] [] .nil ∧
    processNestedFields [] [] (.cons ("x".toList) (JVal.obj .nil) .nil) =
      (processNestedFields [] [] .nil).map (c1WitnessFile :: ·) :=
  ⟨c1_amended.1 [] [] ("prometheus.json".toList) JVal.null .nil (by decide),
   c1_amended.2 [] [] ("x".toList) (JVal.obj .nil) .nil c1WitnessFile (by rfl)⟩

/-- A pretty-printed dashboard whose `"x"` line holds the string `"a[]b"`
with one extra space, so that the re-serialized line differs from it. -/
def c5CexContent : List Char :=
  ("\x7b\n    \"templating\": \x7b\n        \"list\": []\n    \x7d,\n" ++
   "    \"x\":  \"a[]b\"\n\x7d").toList

/-- What the patch actually produces for `c5CexContent`: the `"x"` line is
silently deleted (its `[]` is inside the string, not at the line's end). -/
def c5CexOut : List Char :=
  ("\x7b\n    \"templating\": \x7b\n        \"list\": []\n    \x7d,\n\x7d").toList

/-- C5 counterexample: the re-serialized `"x"` line contains `[]`, differs
from the original line at its index, yet is neither kept nor replaced by
three lines — it is deleted outright, dropping the dashboard data `a[]b`
(six lines in, five lines out). -/
theorem c5_counterexample :
    patch_json_for_multicluster_configuration c5CexContent = .ok c5CexOut ∧
    containsSub c5CexContent ("a[]b".toList) = true ∧
    containsSub c5CexOut ("a[]b".toList) = false ∧
    (splitNl c5CexContent).length = 6 ∧ (splitNl c5CexOut).length = 5 := by
  refine ⟨by decide, by decide, by decide, by decide, by decide⟩

/-- C5 amended: in the reconciliation loop, a line without an empty-container
literal is kept; a line equal to the original line at its index is kept; and
a differing line containing a literal whose comma-stripped form ends in `{}`
or `[]` is replaced by exactly three lines — the line without its closing
bracket, a blank line, and the closing bracket at the line's indentation
with the trailing comma preserved.  (A differing line whose literal is not
at its end is deleted, as the counterexample shows.) -/
theorem c5_line_rules :
    (∀ (orig : List (List Char)) (i : Nat) (line : List Char)
        (rest r : List (List Char)),
      lineHasEmptyLit line = false →
      reconcileLines orig (i + 1) rest = .ok r →
      reconcileLines orig i (line :: rest) = .ok (line :: r)) ∧
    (∀ (orig : List (List Char)) (i : Nat) (line : List Char)
        (rest r : List (List Char)),
      orig[i]? = some line →
      reconcileLines orig (i + 1) rest = .ok r →
      reconcileLines orig i (line :: rest) = .ok (line :: r)) ∧
    (∀ (orig : List (List Char)) (i : Nat) (line : List Char)
        (rest r : List (List Char)) (ol stripped app : List Char),
      orig[i]? = some ol →
      line ≠ ol →
      lineHasEmptyLit line = true →
      stripped = (if line.getLast? = some cmc then line.dropLast else line) →
      app = (if line.getLast? = some cmc then [cmc] else ([] : List Char)) →
      (emptyObjLit.isSuffixOf stripped || emptyArrLit.isSuffixOf stripped) = true →
      reconcileLines orig (i + 1) rest = .ok r →
      reconcileLines orig i (line :: rest) =
        .ok (stripped.dropLast :: [] ::
          (pad (leadingSpaces stripped) ++ [stripped.getLast?.getD spc] ++ app) :: r)) := by
  refine ⟨?_, ?_, ?_⟩
  · intro orig i line rest r hlit hrest
    simp only [reconcileLines, hlit, Bool.not_false, if_true]
    rw [hrest]
    rfl
  · intro orig i line rest r horig hrest
    cases hlit : lineHasEmptyLit line with
    | false =>
      simp only [reconcileLines, hlit, Bool.not_false, if_true]
      rw [hrest]
      rfl
    | true =>
      simp only [reconcileLines, hlit, Bool.not_true, if_false, horig, if_pos rfl]
      rw [hrest]
      rfl
  · intro orig i line rest r ol stripped app horig hne hlit hstr happ hsuf hrest
    subst hstr
    subst happ
    simp only [reconcileLines, hlit, Bool.not_true, if_false, horig, if_neg hne, hsuf, if_true]
    rw [hrest]
    rfl

/-- C5 witness: the three reconciliation rules at concrete lines. -/
theorem c5_witness :
    reconcileLines [] 0 ["x".toList] = .ok ["x".toList] ∧
    reconcileLines ["[]".toList] 0 ["[]".toList] = .ok ["[]".toList] ∧
    reconcileLines ["q".toList] 0 ["    \"a\": [],".toList] =
      .ok ["    \"a\": [".toList, [], "    ],".toList] := by
  refine ⟨c5_line_rules.1 [] 0 ("x".toList) [] [] (by decide) rfl,
    c5_line_rules.2.1 ["[]".toList] 0 ("[]".toList) [] [] (by decide) rfl, ?_⟩
  have h := c5_line_rules.2.2 ["q".toList] 0 ("    \"a\": [],".toList) [] []
    ("q".toList) ("    \"a\": []".toList) [cmc]
    (by decide) (by decide) (by decide) (by decide) (by decide) (by decide) rfl
  simpa using h

/-- The Helm conditional as it stands in the emitted file after the emit
pass has restored its backslash-escaped braces. -/
def helmCondChars : List Char :=
  ("\x7b\x7b if .Values.grafana.sidecar.dashboards.multicluster " ++
   "\x7d\x7d0\x7b\x7b else \x7d\x7d2\x7b\x7b end \x7d\x7d").toList

/-- Modelled from the spec: the Helm engine's rendering of `helmCondChars` —
`0` when `.Values.grafana.sidecar.dashboards.multicluster` is enabled, `2`
otherwise; a bare number, never a quoted string. -/
def helmRenderMulticluster (flag : Bool) : List Char :=
  if flag then ['0'] else ['2']

/-- C10: the sentinel replacement consumes the surrounding double quotes —
`content[:p-1]` drops the opening quote before the sentinel and
`content[p+15:]` skips the 14 sentinel characters plus the closing quote —
so the serialized `"hide": ":multicluster:"` becomes `"hide": ` followed by
the unquoted conditional, which renders to a bare `0` or `2`. -/
theorem c10_replacement_consumes_quotes (content t : List Char) (p : Nat)
    (hser : patchSerialize content = .ok t)
    (hfind : findSub t sentinel = some p)
    (hp : 1 ≤ p)
    (_hquotes : (t.drop (p - 1)).take 16 = dq :: (sentinel ++ [dq])) :
    patchTry content = .ok (t.take (p - 1) ++ condChars ++ t.drop (p + 15)) ∧
    dq ∉ condChars ∧
    emitEscapePass condChars = helmCondChars ∧
    helmRenderMulticluster true = ['0'] ∧ helmRenderMulticluster false = ['2'] := by
  refine ⟨?_, by decide, by decide, rfl, rfl⟩
  unfold patchTry
  simp only [hser, sentinelReplace, hfind]
  rw [if_neg (by omega : ¬ p = 0)]

/-- The input of the C10 witness: one `cluster` variable with `hide: 1`. -/
def c10Content : List Char :=
  "\x7b\"templating\": \x7b\"list\": [\x7b\"name\": \"cluster\", \"hide\": 1\x7d]\x7d\x7d".toList

/-- The serialized-and-reconciled text of the C10 witness. -/
def c10T : List Char :=
  match patchSerialize c10Content with
  | .ok t => t
  | .error _ => []

/-- The sentinel position in `c10T`. -/
def c10P : Nat := (findSub c10T sentinel).getD 0

/-- C10 witness: the quote-consuming replacement at the concrete dashboard. -/
theorem c10_witness :
    patchTry c10Content = .ok (c10T.take (c10P - 1) ++ condChars ++ c10T.drop (c10P + 15)) ∧
    dq ∉ condChars ∧
    emitEscapePass condChars = helmCondChars ∧
    helmRenderMulticluster true = ['0'] ∧ helmRenderMulticluster false = ['2'] :=
  c10_replacement_consumes_quotes c10Content c10T c10P rfl rfl (by decide) (by decide)

/-- A dashboard with two `templating.list` entries named `cluster`. -/
def c3CexContent : List Char :=
  ("\x7b\"templating\": \x7b\"list\": [\x7b\"name\": \"cluster\", \"hide\": 0\x7d, " ++
   "\x7b\"name\": \"cluster\", \"hide\": 0\x7d]\x7d\x7d").toList

/-- C3 counterexample: for a dashboard containing two `templating.list`
entries named `cluster`, only the first serialized sentinel is replaced
(`str.find` returns one position) and the literal `:multicluster:` survives
in the emitted file text. -/
theorem c3_counterexample :
    (write_group_to_file ("n".toList) c3CexContent ("u".toList) ("d".toList)).map
      (fun f => containsSub f.2 sentinel) = .ok true := by
  decide

/-- C3 amended: for a dashboard whose serialized patched text contains the
sentinel exactly once, enclosed in its quotes (the case of a single
`cluster` entry and no other occurrence), the `hide` field becomes the Helm
conditional rendering to `0` when the multicluster flag is enabled and `2`
otherwise, and the sentinel does not appear anywhere in the output. -/
theorem c3_single_sentinel_replaced (content t : List Char) (p : Nat)
    (hser : patchSerialize content = .ok t)
    (hfind : findSub t sentinel = some p)
    (hp : 1 ≤ p)
    (_hquotes : (t.drop (p - 1)).take 16 = dq :: (sentinel ++ [dq]))
    (hA : containsSub (t.take (p - 1)) sentinel = false)
    (hB : containsSub (t.drop (p + 15)) sentinel = false) :
    patchTry content = .ok (t.take (p - 1) ++ condChars ++ t.drop (p + 15)) ∧
    containsSub (t.take (p - 1) ++ condChars ++ t.drop (p + 15)) sentinel = false ∧
    emitEscapePass condChars = helmCondChars ∧
    helmRenderMulticluster true = ['0'] ∧ helmRenderMulticluster false = ['2'] := by
  refine ⟨?_, ?_, by decide, rfl, rfl⟩
  · unfold patchTry
    simp only [hser, sentinelReplace, hfind]
    rw [if_neg (by omega : ¬ p = 0)]
  · rw [List.append_assoc]
    exact sentinel_not_in_splice (t.take (p - 1)) (t.drop (p + 15)) hA hB

/-- The input of the C3 witness: one `cluster` variable with `hide: 0`. -/
def c3Content : List Char :=
  "\x7b\"templating\": \x7b\"list\": [\x7b\"name\": \"cluster\", \"hide\": 0\x7d]\x7d\x7d".toList

/-- The serialized-and-reconciled text of the C3 witness. -/
def c3T : List Char :=
  match patchSerialize c3Content with
  | .ok t => t
  | .error _ => []

/-- The sentinel position in `c3T`. -/
def c3P : Nat := (findSub c3T sentinel).getD 0

/-- C3 witness: the single-occurrence case at a concrete dashboard. -/
theorem c3_witness :
    patchTry c3Content = .ok (c3T.take (c3P - 1) ++ condChars ++ c3T.drop (c3P + 15)) ∧
    containsSub (c3T.take (c3P - 1) ++ condChars ++ c3T.drop (c3P + 15)) sentinel = false ∧
    emitEscapePass condChars = helmCondChars ∧
    helmRenderMulticluster true = ['0'] ∧ helmRenderMulticluster false = ['2'] :=
  c3_single_sentinel_replaced c3Content c3T c3P rfl rfl (by decide) (by decide)
    (by decide) (by decide)

/-- C2 counterexample: the input `\}\}}` contains the backslash-escaped pair
`\}\}`, but the emit pass produces `\}\{{`}}`}}` — the escape pass consumed
the second half of the escaped pair as part of a bare `}}`, so the pair is
not restored to a literal `}}` (the backslashes survive), diverging from the
claim's per-occurrence mapping, which yields `}}}`. -/
theorem c2_counterexample :
    containsSub ("\\\x7d\\\x7d\x7d".toList) bsClose = true ∧
    emitEscapePass ("\\\x7d\\\x7d\x7d".toList) =
      ("\\\x7d\\" ++ "\x7b\x7b\x60\x7d\x7d\x60\x7d\x7d").toList ∧
    claimEscapeMap ("\\\x7d\\\x7d\x7d".toList) = [rb, rb, rb] ∧
    emitEscapePass ("\\\x7d\\\x7d\x7d".toList) ≠
      claimEscapeMap ("\\\x7d\\\x7d\x7d".toList) := by
  refine ⟨by decide, by decide, by decide, by decide⟩

/-- C2 amended: on inputs where every `{{`, `}}`, `\{\{`, `\}\}` stands
apart — the text splits into plain chunks (no braces, backslashes or
backticks) separating the brace tokens — the emit pass maps each
backslash-escaped pair to literal braces and each bare pair to its
engine-escaped form, leaving all other text unchanged; on such inputs it
agrees exactly with the claim's per-occurrence mapping. -/
theorem c2_escape_roundtrip (c0 : List Char) (ps : List (BraceTok × List Char))
    (h0 : plainChunk c0 = true)
    (hwf : chunksWF (ps.map fun tc => (tokIn tc.1, tc.2)) = true) :
    emitEscapePass (assembleSegs c0 (ps.map fun tc => (tokIn tc.1, tc.2))) =
      assembleSegs c0 (ps.map fun tc => (tokOut tc.1, tc.2)) ∧
    emitEscapePass (assembleSegs c0 (ps.map fun tc => (tokIn tc.1, tc.2))) =
      claimEscapeMap (assembleSegs c0 (ps.map fun tc => (tokIn tc.1, tc.2))) := by
  have h1 := emitEscapePass_segs c0 ps h0 hwf
  have h2 := claimMap_segs ps c0 h0 hwf
  exact ⟨h1, h1.trans h2.symm⟩

/-- C2 witness: `hide: \{\{ x {{` maps to `hide: {{ x {{`{{`}}`. -/
theorem c2_witness :
    emitEscapePass (assembleSegs ("hide: ".toList)
        ([(BraceTok.escOpen2, " x ".toList), (BraceTok.open2, [])].map
          fun tc => (tokIn tc.1, tc.2))) =
      assembleSegs ("hide: ".toList)
        ([(BraceTok.escOpen2, " x ".toList), (BraceTok.open2, [])].map
          fun tc => (tokOut tc.1, tc.2)) ∧
    emitEscapePass (assembleSegs ("hide: ".toList)
        ([(BraceTok.escOpen2, " x ".toList), (BraceTok.open2, [])].map
          fun tc => (tokIn tc.1, tc.2))) =
      claimEscapeMap (assembleSegs ("hide: ".toList)
        ([(BraceTok.escOpen2, " x ".toList), (BraceTok.open2, [])].map
          fun tc => (tokIn tc.1, tc.2))) :=
  c2_escape_roundtrip ("hide: ".toList)
    [(BraceTok.escOpen2, " x ".toList), (BraceTok.open2, [])] (by decide) (by decide)

theorem pyReplace_of_not_containsSub (pat rep : List Char) :
    ∀ (s : List Char), containsSub s pat = false → pyReplace pat rep s = s := by
  intro s
  induction s with
  | nil => intro _; rfl
  | cons c rest ih =>
    intro h
    have h2 : pat.isPrefixOf (c :: rest) = false ∧ containsSub rest pat = false := by
      simpa only [containsSub, Bool.or_eq_false_iff] using h
    rw [pyReplace_cons_neg rep h2.1, ih h2.2]

/-- The pattern `.json` has no border (no proper prefix equals the corresponding
suffix), so no occurrence of `.json` can span the boundary between a stem
and an appended `.json`. -/
theorem json_ext_no_span (stem : List Char) :
    ∀ (p₁ p₂ : List Char), ".json".toList = p₁ ++ p₂ → p₁ ≠ [] → p₂ ≠ [] →
      ¬(p₁ <:+ stem ∧ p₂ <+: (".json".toList)) := by
  intro p₁ p₂ he h1 h2 hc
  have hp2 : p₂ = (".json".toList).drop p₁.length := by
    rw [he, List.drop_left]
  have hlen : p₁.length + p₂.length = 5 := by
    have h3 := congrArg List.length he
    rw [List.length_append, show (".json".toList).length = 5 from by decide] at h3
    omega
  have h1p : 1 ≤ p₁.length := List.length_pos.mpr h1
  have h2p : 1 ≤ p₂.length := List.length_pos.mpr h2
  have hk : p₁.length = 1 ∨ p₁.length = 2 ∨ p₁.length = 3 ∨ p₁.length = 4 := by omega
  rcases hk with hk | hk | hk | hk <;>
    (rw [hk] at hp2; rw [hp2] at hc; exact absurd hc.2 (by decide))

/-- Removing every `.json` from `stem ++ ".json"` yields `stem` when the
stem itself contains no `.json`. -/
theorem pyReplace_json_ext (stem : List Char)
    (hst : containsSub stem (".json".toList) = false) :
    pyReplace (".json".toList) [] (stem ++ ".json".toList) = stem := by
  rw [pyReplace_append (".json".toList) [] (by decide) stem (".json".toList)
    (json_ext_no_span stem)]
  rw [pyReplace_of_not_containsSub _ _ stem hst]
  rw [show pyReplace (".json".toList) [] (".json".toList) = [] from by decide]
  exact List.append_nil stem

/-- A flat dashboard (truthy `annotations`) with two `cluster` variables
lacking `hide` and a trailing empty array: the patch inserts two lines, so
the re-serialized `"z": []` line lands past the end of the original lines
and the reconciliation raises an uncaught `IndexError`. -/
def c7CexBody : List Char :=
  ("\x7b\"annotations\": \x7b\"a\": 1\x7d, \"templating\": \x7b\"list\": " ++
   "[\x7b\"name\": \"cluster\"\x7d, \x7b\"name\": \"cluster\"\x7d]\x7d, \"z\": []\x7d").toList

/-- C7 counterexample: a JSON source whose top-level object has a truthy
`annotations` field can still produce no output file at all — the
multicluster patch's `IndexError` propagates and aborts the run. -/
theorem c7_counterexample :
    ((pyLoads c7CexBody).map fun v =>
      (pyDictGet v ("annotations".toList)).map truthy) = .ok (.ok true) ∧
    runChart (fun _ => .error PyErr.valueError)
        ⟨"https://x/dash.json".toList, "d".toList, CType.json⟩ ⟨200, c7CexBody⟩ =
      .error PyErr.indexError := by
  refine ⟨by decide, by decide⟩

/-- C7 amended: for a JSON source with a 200 response whose top-level object
has a truthy `annotations` field, provided the multicluster patch completes
without an uncaught error, exactly one output file is produced, named after
the URL's last path segment with its `.json` extension replaced by `.yaml`
(every `.json` occurrence is removed and `.yaml` appended; for a segment
`stem.json` with no other `.json` in it this is `stem.yaml`). -/
theorem c7_flat_single_file (yl : List Char → Except PyErr JVal) (c : Chart)
    (r : HttpResp) (v : JVal) (av : Option JVal) (fn txt stem : List Char)
    (hty : c.ctype = CType.json)
    (hst : r.status = 200)
    (hload : pyLoads r.text = .ok v)
    (hget : pyDictGet v ("annotations".toList) = .ok av)
    (htru : truthy av = true)
    (hwrite : write_group_to_file (pyReplace (".json".toList) [] (pyBasename c.source))
        (pyDumps4 v) c.source c.destination = .ok (fn, txt))
    (hb : pyBasename c.source = stem ++ ".json".toList)
    (hns : containsSub stem (".json".toList) = false) :
    runChart yl c r = .ok ([(fn, txt)], [genMsg c.source, wroteMsg fn]) ∧
    fn = c.destination ++ '/' ::
      (pyReplace (".json".toList) [] (pyBasename c.source) ++ ".yaml".toList) ∧
    fn = c.destination ++ '/' :: (stem ++ ".yaml".toList) := by
  have hname : fn = c.destination ++ '/' ::
      (pyReplace (".json".toList) [] (pyBasename c.source) ++ ".yaml".toList) := by
    unfold write_group_to_file at hwrite
    split at hwrite
    · exact (Except.noConfusion hwrite)
    · simp only [Except.ok.injEq, Prod.mk.injEq] at hwrite
      exact hwrite.1.symm
  refine ⟨?_, hname, ?_⟩
  · unfold runChart
    rw [if_neg (by simp [hst])]
    simp only [hty, hload, hget, htru, if_true, hwrite]
  · rw [hname, hb, pyReplace_json_ext stem hns]

/-- The flat dashboard body of the C7 witness. -/
def c7Body : List Char :=
  "\x7b\"annotations\": \x7b\"a\": 1\x7d, \"templating\": \x7b\"list\": []\x7d\x7d".toList

/-- The chart of the C7 witness. -/
def c7Chart : Chart := ⟨"https://x/dash.json".toList, "d".toList, CType.json⟩

/-- The parsed value of the C7 witness body. -/
def c7Val : JVal :=
  match pyLoads c7Body with
  | .ok v => v
  | .error _ => JVal.null

/-- The `annotations` value of the C7 witness body. -/
def c7Ann : Option JVal :=
  match pyDictGet c7Val ("annotations".toList) with
  | .ok av => av
  | .error _ => none

/-- The file written by the C7 witness run. -/
def c7File : List Char × List Char :=
  match write_group_to_file (pyReplace (".json".toList) [] (pyBasename c7Chart.source))
      (pyDumps4 c7Val) c7Chart.source c7Chart.destination with
  | .ok f => f
  | .error _ => ([], [])

/-- C7 witness: the concrete flat source produces exactly the one file
`d/dash.yaml`. -/
theorem c7_witness :
    runChart (fun _ => .error PyErr.valueError) c7Chart ⟨200, c7Body⟩ =
      .ok ([(c7File.1, c7File.2)], [genMsg c7Chart.source, wroteMsg c7File.1]) ∧
    c7File.1 = c7Chart.destination ++ '/' ::
      (pyReplace (".json".toList) [] (pyBasename c7Chart.source) ++ ".yaml".toList) ∧
    c7File.1 = c7Chart.destination ++ '/' :: ("dash".toList ++ ".yaml".toList) :=
  c7_flat_single_file (fun _ => .error PyErr.valueError) c7Chart ⟨200, c7Body⟩
    c7Val c7Ann c7File.1 c7File.2 ("dash".toList) rfl rfl rfl rfl (by decide) rfl
    (by decide) (by decide)
